import Mathlib

/-
Shallow embedding of the two consolidation scripts of the MoneyWise repository:

  src/moneywise-backend/create-sqlx-data.py   (function create_sqlx_data)
  src/moneywise-backend/fix-sqlx-data.py      (function main)

Modelling conventions:
  * Parsed JSON documents are modelled by the inductive type `Json`.  A JSON
    number is carried as the string of its serialized form: none of the
    scripts' logic inspects or transforms numbers, they are pass-through data.
  * `json.load` (file reading plus parsing) is modelled by a map
    `fs : String → Option Json` from (base)names to parsed contents; `none`
    covers a missing, unreadable or unparseable file, each of which raises an
    exception that the scripts catch and turn into a skip.
  * Directory scanning `glob.glob(".sqlx/query-*.json")` is modelled at the
    level of basenames: every returned path carries the constant ".sqlx/"
    directory prefix, which `os.path.basename` / `pathlib.Path.stem` discard
    and which does not affect the relative lexicographic order used by
    `sorted`, so the model works with the basename lists directly.
  * Python `str.replace(pat, repl)` replaces every non-overlapping occurrence
    left to right; `replaceAll` below implements exactly that scan (the
    scripts only use non-empty patterns).
  * Writing `sqlx-data.json` is modelled by the `output` field of `RunResult`
    (`none` meaning the file is not written); I/O write failures are outside
    the model.
-/

/-- Parsed JSON values, as produced by Python's `json.load`.  Numbers are
represented by their serialized text, since the scripts treat every value
other than the top-level object shape opaquely. -/
inductive Json where
  | null : Json
  | bool (b : Bool) : Json
  | num (lit : String) : Json
  | str (s : String) : Json
  | arr (items : List Json) : Json
  | obj (fields : List (String × Json)) : Json

/-- One element of the output `queries` list: the dictionary
`{"hash": …, "query": …, "describe": …}` built by both scripts
(create-sqlx-data.py lines 41-45, fix-sqlx-data.py lines 39-44). -/
structure QueryEntry where
  hash : String
  query : Json
  describe : Json

instance : IsTotal String (fun a b => a.data ≤ b.data) :=
  ⟨fun a b => (le_total a b).imp
    (fun h => String.le_iff_toList_le.mp h) (fun h => String.le_iff_toList_le.mp h)⟩

instance : IsTrans String (fun a b => a.data ≤ b.data) :=
  ⟨fun _ _ _ hab hbc =>
    String.le_iff_toList_le.mp
      (le_trans (String.le_iff_toList_le.mpr hab) (String.le_iff_toList_le.mpr hbc))⟩

instance : IsAntisymm String (fun a b => a.data ≤ b.data) :=
  ⟨fun _ _ hab hba =>
    le_antisymm (String.le_iff_toList_le.mpr hab) (String.le_iff_toList_le.mpr hba)⟩

/-- Python dict lookup on an association list of parsed JSON object fields.
`json.load` keeps the last binding when a key is duplicated, hence the last
matching pair wins. -/
def lookupLast (kvs : List (String × Json)) (k : String) : Option Json :=
  ((kvs.filter (fun kv => kv.1 == k)).getLast?).map (fun kv => kv.2)

/-- Fuel-indexed worker for `replaceAll`; the fuel only serves to make the
recursion structural, `replaceAll` always supplies enough of it. -/
def replaceAllAux (p r : List Char) : Nat → List Char → List Char
  | _, [] => []
  | 0, l => l
  | fuel + 1, c :: cs =>
    if p.isPrefixOf (c :: cs) then r ++ replaceAllAux p r fuel (cs.drop (p.length - 1))
    else c :: replaceAllAux p r fuel cs

/-- Python's `str.replace(p, r)` on character lists: replace every
non-overlapping occurrence of `p` by `r`, scanning left to right.
(The scripts only call it with the non-empty patterns "query-" and ".json".) -/
def replaceAll (p r l : List Char) : List Char :=
  replaceAllAux p r l.length l

/-- Python's `str.replace` on strings. -/
def pyReplace (s pat repl : String) : String :=
  ⟨replaceAll pat.data repl.data s.data⟩

/-- Index of the last '.' in a name, scanning with explicit positions;
models `str.rfind('.')` restricted to success/failure. -/
def lastDotFrom : List Char → Nat → Option Nat
  | [], _ => none
  | c :: cs, i =>
    match lastDotFrom cs (i + 1) with
    | some j => some j
    | none => if c == '.' then some i else none

/-- Model of `name.rfind('.')` returning `none` for -1. -/
def rfindDot (l : List Char) : Option Nat :=
  lastDotFrom l 0

/-- `pathlib.PurePath.stem` on a final path component: drop the last suffix,
where a suffix starts at the last '.' provided that dot is neither the first
nor the last character of the name. -/
def stemData (name : List Char) : List Char :=
  match rfindDot name with
  | some i => if 0 < i ∧ i < name.length - 1 then name.take i else name
  | none => name

/-- `pathlib.Path(query_file).stem` for a basename. -/
def pathStem (name : String) : String :=
  ⟨stemData name.data⟩

/-- Identifier derivation of create-sqlx-data.py line 38:
`hash_part = filename.replace('query-', '').replace('.json', '')`. -/
def hash_part (filename : String) : String :=
  pyReplace (pyReplace filename "query-" "") ".json" ""

/-- Identifier derivation of fix-sqlx-data.py line 36:
`hash_value = Path(query_file).stem.replace('query-', '')`. -/
def hash_value (query_file : String) : String :=
  pyReplace (pathStem query_file) "query-" ""

/-- Whether a basename matches the glob pattern `query-*.json`
(`*` matches any, possibly empty, run of characters, so the name is the
prefix, then at least zero characters, then the suffix). -/
def globMatch (name : String) : Bool :=
  "query-".data.isPrefixOf name.data
    && ".json".data.isSuffixOf name.data
    && decide (11 ≤ name.data.length)

/-- Per-file processing shared by both scripts, parameterized by the script's
identifier derivation `h`: load and parse the file, index the parsed dict at
"query" and "describe", and build the entry; any failure (unreadable or
unparseable file, non-dict document, missing key) raises an exception that the
`except` clause turns into a skip (`none`). -/
def entryOf (h : String → String) (fs : String → Option Json) (name : String) :
    Option QueryEntry :=
  match fs name with
  | some (Json.obj kvs) =>
    match lookupLast kvs "query", lookupLast kvs "describe" with
    | some q, some d => some ⟨h name, q, d⟩
    | _, _ => none
  | _ => none

/-- Whether a file would be consolidated rather than skipped. -/
def validB (fs : String → Option Json) (name : String) : Bool :=
  match fs name with
  | some (Json.obj kvs) =>
    (lookupLast kvs "query").isSome && (lookupLast kvs "describe").isSome
  | _ => false

/-- The `sqlx_data["queries"]` list accumulated by the `for query_file in
sorted(query_files)` loop, for identifier derivation `h`.  Python's `sorted`
compares strings lexicographically by code point; the comparison is written
on the character lists (`pyLe_iff` below proves it coincides with `≤` on
`String`) so that it evaluates inside the kernel. -/
def entriesOf (h : String → String) (fs : String → Option Json)
    (listing : List String) : List QueryEntry :=
  (listing.insertionSort (fun a b => a.data ≤ b.data)).filterMap (entryOf h fs)

/-- The dict `query_entry` as a JSON object: exactly the three fields
"hash", "query", "describe", in insertion order. -/
def entryJson (e : QueryEntry) : Json :=
  Json.obj [("hash", Json.str e.hash), ("query", e.query), ("describe", e.describe)]

/-- The aggregate dict `{"db": "PostgreSQL", "queries": [...]}` in insertion
order, with each entry serialized as its three-field dict. -/
def aggregate (entries : List QueryEntry) : Json :=
  Json.obj
    [("db", Json.str "PostgreSQL"),
     ("queries", Json.arr (entries.map entryJson))]

/-- Observable result of one script run: the parsed content written to
sqlx-data.json (`none` when the file is not written) and the process exit
status. -/
structure RunResult where
  output : Option Json
  exitCode : Nat

/-- Run of create-sqlx-data.py on directory contents `dir` (basenames) with
parsed file contents `fs`: glob, early return `False` (hence `exit(1)`) when
nothing matches, otherwise consolidate in sorted order and write the file,
returning `True` (hence `exit(0)`). -/
def runCreate (fs : String → Option Json) (dir : List String) : RunResult :=
  let query_files := dir.filter globMatch
  if query_files.isEmpty then ⟨none, 1⟩
  else ⟨some (aggregate (entriesOf hash_part fs query_files)), 0⟩

/-- Run of fix-sqlx-data.py: same consolidation, but `main()` just returns on
the empty-glob path and the script never calls `exit`, so the process exit
status is 0 in every modelled run. -/
def runFix (fs : String → Option Json) (dir : List String) : RunResult :=
  let query_files := dir.filter globMatch
  if query_files.isEmpty then ⟨none, 0⟩
  else ⟨some (aggregate (entriesOf hash_value fs query_files)), 0⟩

/-- Indentation: `n` spaces. -/
def spaces (n : Nat) : String :=
  ⟨List.replicate n ' '⟩

/-- Lowercase hexadecimal digit, as produced by Python's `'%04x'` formatting
inside the JSON encoder. -/
def hexDigit (n : Nat) : Char :=
  if n < 10 then Char.ofNat (48 + n) else Char.ofNat (87 + n)

/-- Four lowercase hexadecimal digits. -/
def hex4 (n : Nat) : String :=
  ⟨[hexDigit (n / 4096 % 16), hexDigit (n / 256 % 16), hexDigit (n / 16 % 16),
    hexDigit (n % 16)]⟩

/-- Escaping of one character by Python's JSON encoder with the default
`ensure_ascii=True`: the two-character shortcuts, printable ASCII verbatim,
and `\uXXXX` (a surrogate pair beyond the basic plane) for the rest. -/
def escapeChar (c : Char) : String :=
  if c = '"' then "\\\""
  else if c = '\\' then "\\\\"
  else if c = '\n' then "\\n"
  else if c = '\r' then "\\r"
  else if c = '\t' then "\\t"
  else if c.toNat = 8 then "\\b"
  else if c.toNat = 12 then "\\f"
  else if 32 ≤ c.toNat ∧ c.toNat < 127 then ⟨[c]⟩
  else if c.toNat < 65536 then "\\u" ++ hex4 c.toNat
  else
    "\\u" ++ hex4 (55296 + (c.toNat - 65536) / 1024)
      ++ "\\u" ++ hex4 (56320 + (c.toNat - 65536) % 1024)

/-- A JSON string literal with its quotes. -/
def quoteStr (s : String) : String :=
  "\"" ++ String.join (s.data.map escapeChar) ++ "\""

mutual
/-- Serialization of `json.dump(obj, f, indent=2)` at nesting level `lvl`
(the level is the column of the construct's closing bracket): item separator
`",\n"`, key separator `": "`, empty containers inline, two extra spaces of
indentation per level. -/
def jsonDump : Json → Nat → String
  | Json.null, _ => "null"
  | Json.bool true, _ => "true"
  | Json.bool false, _ => "false"
  | Json.num lit, _ => lit
  | Json.str s, _ => quoteStr s
  | Json.arr [], _ => "[]"
  | Json.arr (x :: xs), lvl =>
    "[\n" ++ dumpItems (x :: xs) (lvl + 2) ++ "\n" ++ spaces lvl ++ "]"
  | Json.obj [], _ => "\x7b\x7d"
  | Json.obj (f :: gs), lvl =>
    "\x7b\n" ++ dumpFields (f :: gs) (lvl + 2) ++ "\n" ++ spaces lvl ++ "\x7d"

/-- Array elements, one per line at level `lvl`. -/
def dumpItems : List Json → Nat → String
  | [], _ => ""
  | [x], lvl => spaces lvl ++ jsonDump x lvl
  | x :: y :: xs, lvl =>
    spaces lvl ++ jsonDump x lvl ++ ",\n" ++ dumpItems (y :: xs) lvl

/-- Object fields, one per line at level `lvl`, in insertion order. -/
def dumpFields : List (String × Json) → Nat → String
  | [], _ => ""
  | [(k, v)], lvl => spaces lvl ++ quoteStr k ++ ": " ++ jsonDump v lvl
  | (k, v) :: g :: gs, lvl =>
    spaces lvl ++ quoteStr k ++ ": " ++ jsonDump v lvl ++ ",\n" ++ dumpFields (g :: gs) lvl
end

/-- The bytes written to `sqlx-data.json` by a run (`none` when the file is
not written). -/
def outputBytes (res : RunResult) : Option String :=
  res.output.map (fun j => jsonDump j 0)

/-- Whether the pattern `p` occurs anywhere in the text, i.e. matches at the
head of some suffix. -/
def occursB (p : List Char) : List Char → Bool
  | [] => p.isPrefixOf []
  | c :: cs => p.isPrefixOf (c :: cs) || occursB p cs

/-- A concrete parsed-file map used by the concrete instances below; every
branch mirrors a small `.sqlx` directory layout. -/
def wFs : String → Option Json := fun n =>
  if n = "query-a.json" then
    some (Json.obj
      [("query", Json.str "SELECT 1"), ("describe", Json.obj [("columns", Json.arr [])])])
  else if n = "query-b.json" then
    some (Json.obj [("query", Json.str "SELECT 2"), ("describe", Json.null)])
  else if n = "query-bad.json" then
    some (Json.obj [("query", Json.str "SELECT 3")])
  else if n = "query-a.jsonb.json" then
    some (Json.obj [("query", Json.str "SELECT 9"), ("describe", Json.null)])
  else if n = "query-ab.json" then
    some (Json.obj [("query", Json.str "q"), ("describe", Json.null)])
  else if n = "query-query-ab.json" then
    some (Json.obj [("query", Json.str "q"), ("describe", Json.null)])
  else none

/-- A parsed-file map holding one descriptor with a null query value, a
numeric describe value, and an extra field. -/
def wFs10 : String → Option Json := fun n =>
  if n = "query-odd.json" then
    some (Json.obj
      [("query", Json.null), ("describe", Json.num "7"), ("extra", Json.bool true)])
  else none

/-- Projection extracting the hash of the first query entry of a written
output, used to separate two aggregate values without comparing whole JSON
trees. -/
def outputFirstHash (res : RunResult) : Option String :=
  match res.output with
  | some (Json.obj [_, (_, Json.arr (Json.obj ((_, Json.str hsh) :: _) :: _))]) => some hsh
  | _ => none

example : hash_part "query-abc123.json" = "abc123" := by decide
example : hash_value "query-abc123.json" = "abc123" := by decide
example : hash_part "query-query-x.json" = "x" := by decide
example : hash_value "query-query-x.json" = "x" := by decide
example : hash_part "query-a.jsonb.json" = "ab" := by decide
example : hash_value "query-a.jsonb.json" = "a.jsonb" := by decide
example : globMatch "query-.json" = true := by decide
example : globMatch "query.json" = false := by decide

/-- The fuel argument of `replaceAllAux` is irrelevant as long as it is at
least the length of the list being scanned. -/
theorem replaceAllAux_congr (p r : List Char) :
    ∀ (n f g : Nat) (l : List Char), l.length ≤ n → l.length ≤ f → l.length ≤ g →
      replaceAllAux p r f l = replaceAllAux p r g l := by
  intro n
  induction n with
  | zero =>
    intro f g l hn _ _
    have hl : l = [] := List.eq_nil_of_length_eq_zero (Nat.le_zero.mp hn)
    subst hl
    cases f <;> cases g <;> rfl
  | succ n ih =>
    intro f g l hn hf hg
    cases l with
    | nil => cases f <;> cases g <;> rfl
    | cons c cs =>
      simp only [List.length_cons] at hn hf hg
      obtain ⟨f', rfl⟩ : ∃ f', f = f' + 1 := ⟨f - 1, by omega⟩
      obtain ⟨g', rfl⟩ : ∃ g', g = g' + 1 := ⟨g - 1, by omega⟩
      simp only [replaceAllAux]
      cases hpre : p.isPrefixOf (c :: cs) with
      | true =>
        have hd : (cs.drop (p.length - 1)).length ≤ n := by
          simp only [List.length_drop]; omega
        rw [if_pos rfl, if_pos rfl,
          ih f' g' (cs.drop (p.length - 1)) hd (by simp only [List.length_drop]; omega)
            (by simp only [List.length_drop]; omega)]
      | false =>
        rw [if_neg (by simp), if_neg (by simp)]
        rw [ih f' g' cs (by omega) (by omega) (by omega)]

/-- `replaceAll` on the empty string. -/
theorem replaceAll_nil (p r : List Char) : replaceAll p r [] = [] :=
  rfl

/-- The defining left-to-right scan of `replaceAll`: replace a match at the
head and resume after it, otherwise keep the head character and scan on. -/
theorem replaceAll_cons (p r : List Char) (c : Char) (cs : List Char) :
    replaceAll p r (c :: cs) =
      if p.isPrefixOf (c :: cs) then r ++ replaceAll p r (cs.drop (p.length - 1))
      else c :: replaceAll p r cs := by
  simp only [replaceAll, List.length_cons, replaceAllAux]
  cases hpre : p.isPrefixOf (c :: cs) with
  | true =>
    rw [if_pos rfl, if_pos rfl,
      replaceAllAux_congr p r cs.length cs.length (cs.drop (p.length - 1)).length
        (cs.drop (p.length - 1)) (by simp only [List.length_drop]; omega)
        (by simp only [List.length_drop]; omega) le_rfl]
  | false =>
    rw [if_neg (by simp), if_neg (by simp)]

/-- A pattern always matches at the head of itself followed by anything. -/
theorem isPrefixOf_append_self (p l : List Char) : p.isPrefixOf (p ++ l) = true := by
  simp [List.isPrefixOf_iff_prefix]

/-- A match at the very head is consumed, and the scan resumes after it. -/
theorem replaceAll_head_match (p r l : List Char) (hp : p ≠ []) :
    replaceAll p r (p ++ l) = r ++ replaceAll p r l := by
  match p, hp with
  | a :: p', _ =>
    rw [List.cons_append, replaceAll_cons]
    rw [if_pos (by rw [← List.cons_append]; exact isPrefixOf_append_self (a :: p') l)]
    simp only [List.length_cons, Nat.add_sub_cancel, List.drop_left]

/-- If the pattern occurs nowhere, `replaceAll` is the identity. -/
theorem replaceAll_no_occurrence (p r : List Char) :
    ∀ l, occursB p l = false → replaceAll p r l = l := by
  intro l
  induction l with
  | nil => intro _; exact replaceAll_nil p r
  | cons c cs ih =>
    intro h
    simp only [occursB, Bool.or_eq_false_iff] at h
    rw [replaceAll_cons, if_neg (by simp [h.1]), ih h.2]

/-- A pattern without a dot that matches at the head of `q ++ '.' :: w`
cannot reach past `q`, so it already matches at the head of `q`. -/
theorem isPrefixOf_append_dot :
    ∀ (p q w : List Char), '.' ∉ p → p.isPrefixOf (q ++ '.' :: w) = true →
      p.isPrefixOf q = true := by
  intro p
  induction p with
  | nil => intro q w _ _; exact List.isPrefixOf_nil_left
  | cons a p' ih =>
    intro q w hdot h
    cases q with
    | nil =>
      exfalso
      simp only [List.nil_append, List.isPrefixOf_cons₂, Bool.and_eq_true, beq_iff_eq] at h
      exact hdot (by simp [h.1])
    | cons b q' =>
      simp only [List.cons_append, List.isPrefixOf_cons₂, Bool.and_eq_true] at h ⊢
      exact ⟨h.1, ih q' w (fun hm => hdot (List.mem_cons_of_mem a hm)) h.2⟩

/-- If a dotless pattern occurs neither in `u` nor in `'.' :: w`, it does not
occur in their concatenation (no occurrence can straddle the boundary). -/
theorem occursB_append_dot (p : List Char) (hdot : '.' ∉ p) :
    ∀ u w, occursB p u = false → occursB p ('.' :: w) = false →
      occursB p (u ++ '.' :: w) = false := by
  intro u
  induction u with
  | nil => intro w _ h2; simpa using h2
  | cons c u' ih =>
    intro w h1 h2
    simp only [occursB, Bool.or_eq_false_iff] at h1
    rw [List.cons_append]
    simp only [occursB, Bool.or_eq_false_iff]
    refine ⟨?_, ih w h1.2 h2⟩
    rw [← List.cons_append]
    cases hp : p.isPrefixOf ((c :: u') ++ '.' :: w) with
    | false => rfl
    | true =>
      exact absurd (isPrefixOf_append_dot p (c :: u') w hdot hp) (by simp [h1.1])

/-- When the text part `u` is at least as long as the pattern, appending more
text after `u` does not change whether the pattern matches at the head. -/
theorem isPrefixOf_append_of_le_length :
    ∀ (p u v : List Char), p.length ≤ u.length →
      p.isPrefixOf (u ++ v) = p.isPrefixOf u := by
  intro p
  induction p with
  | nil => intro u v _; simp
  | cons a p' ih =>
    intro u v hlen
    cases u with
    | nil => simp at hlen
    | cons b u' =>
      simp only [List.cons_append, List.isPrefixOf_cons₂]
      rw [ih u' v (by simpa using hlen)]

/-- If `p` matches at the head of `u ++ v` and `u` is at most as long as `p`,
then `u` matches at the head of `p`. -/
theorem isPrefixOf_of_append_isPrefixOf :
    ∀ (u p v : List Char), p.isPrefixOf (u ++ v) = true → u.length ≤ p.length →
      u.isPrefixOf p = true := by
  intro u
  induction u with
  | nil => intro p v _ _; exact List.isPrefixOf_nil_left
  | cons b u' ih =>
    intro p v h hlen
    cases p with
    | nil => simp at hlen
    | cons a p' =>
      simp only [List.cons_append, List.isPrefixOf_cons₂, Bool.and_eq_true, beq_iff_eq] at h ⊢
      exact ⟨h.1.symm, ih p' v h.2 (by simpa using hlen)⟩

/-- The pattern ".json" is not self-overlapping: if it matches at the head of
`u ++ ".json"` for non-empty `u`, it already matches at the head of `u`. -/
theorem isPrefixOf_json_self_append (u : List Char) (hu : u ≠ [])
    (h : ".json".data.isPrefixOf (u ++ ".json".data) = true) :
    ".json".data.isPrefixOf u = true := by
  have hj : (".json".data).length = 5 := rfl
  by_cases hlen : 5 ≤ u.length
  · rw [isPrefixOf_append_of_le_length ".json".data u ".json".data (by omega)] at h
    exact h
  · exfalso
    have h1 : 1 ≤ u.length := List.length_pos.mpr hu
    have hupre : u.isPrefixOf ".json".data = true :=
      isPrefixOf_of_append_isPrefixOf u ".json".data ".json".data h (by omega)
    have htake : u = ".json".data.take u.length :=
      List.prefix_iff_eq_take.mp (List.isPrefixOf_iff_prefix.mp hupre)
    have hcases : u.length = 1 ∨ u.length = 2 ∨ u.length = 3 ∨ u.length = 4 := by omega
    rcases hcases with h' | h' | h' | h' <;> rw [h'] at htake <;> rw [htake] at h <;>
      simp at h

/-- Stripping every occurrence of ".json" from `u ++ ".json"` when `u`
contains none: only the final suffix is removed. -/
theorem replaceAll_strip_json (u : List Char)
    (h : occursB ".json".data u = false) :
    replaceAll ".json".data [] (u ++ ".json".data) = u := by
  induction u with
  | nil =>
    have := replaceAll_head_match ".json".data [] [] (by decide)
    simpa using this
  | cons c u' ih =>
    simp only [occursB, Bool.or_eq_false_iff] at h
    rw [List.cons_append, replaceAll_cons]
    rw [if_neg ?hneg]
    case hneg =>
      intro hp
      rw [← List.cons_append] at hp
      have := isPrefixOf_json_self_append (c :: u') (by simp) hp
      simp [h.1] at this
    rw [ih h.2]

/-- The length of a matching pattern is bounded by the text. -/
theorem length_le_of_isPrefixOf (p l : List Char) (h : p.isPrefixOf l = true) :
    p.length ≤ l.length :=
  (List.isPrefixOf_iff_prefix.mp h).length_le

/-- A dotless pattern cannot straddle the boundary before a dot, so the
left-to-right replacement scan distributes over such a split. -/
theorem replaceAll_append_dot (p r : List Char) (hdot : '.' ∉ p) :
    ∀ (n : Nat) (u w : List Char), u.length ≤ n →
      replaceAll p r (u ++ '.' :: w) =
        replaceAll p r u ++ replaceAll p r ('.' :: w) := by
  intro n
  induction n with
  | zero =>
    intro u w hu
    have : u = [] := List.eq_nil_of_length_eq_zero (Nat.le_zero.mp hu)
    subst this
    simp [replaceAll_nil]
  | succ n ih =>
    intro u w hu
    cases u with
    | nil => simp [replaceAll_nil]
    | cons c u' =>
      rw [List.cons_append, replaceAll_cons, replaceAll_cons p r c u']
      cases hp : p.isPrefixOf (c :: u') with
      | true =>
        have hp2 : p.isPrefixOf (c :: (u' ++ '.' :: w)) = true := by
          rw [← List.cons_append,
            isPrefixOf_append_of_le_length p (c :: u') ('.' :: w)
              (length_le_of_isPrefixOf p (c :: u') hp)]
          exact hp
        rw [if_pos hp2, if_pos rfl]
        have hlen : p.length - 1 ≤ u'.length := by
          have := length_le_of_isPrefixOf p (c :: u') hp
          simp only [List.length_cons] at this
          omega
        have hlen2 : (u'.drop (p.length - 1)).length ≤ n := by
          simp only [List.length_drop]
          simp only [List.length_cons] at hu
          omega
        rw [List.drop_append_of_le_length hlen]
        rw [ih (u'.drop (p.length - 1)) w hlen2]
        simp [List.append_assoc]
      | false =>
        have hp2 : p.isPrefixOf (c :: (u' ++ '.' :: w)) = false := by
          cases hq : p.isPrefixOf (c :: (u' ++ '.' :: w)) with
          | false => rfl
          | true =>
            rw [← List.cons_append] at hq
            exact absurd (isPrefixOf_append_dot p (c :: u') w hdot hq) (by simp [hp])
        rw [if_neg (by simp [hp2]), if_neg (by simp)]
        rw [ih u' w (by simpa using hu)]
        simp

/-- Scanning for the last dot distributes over concatenation: a dot in the
right part wins, otherwise the left part is consulted. -/
theorem lastDotFrom_append (u v : List Char) :
    ∀ i, lastDotFrom (u ++ v) i =
      match lastDotFrom v (i + u.length) with
      | some j => some j
      | none => lastDotFrom u i := by
  induction u with
  | nil =>
    intro i
    simp only [List.nil_append, List.length_nil, Nat.add_zero]
    cases lastDotFrom v i <;> rfl
  | cons c u' ih =>
    intro i
    rw [List.cons_append]
    show (match lastDotFrom (u' ++ v) (i + 1) with
          | some j => some j
          | none => if c == '.' then some i else none) =
        match lastDotFrom v (i + (c :: u').length) with
        | some j => some j
        | none => lastDotFrom (c :: u') i
    rw [ih (i + 1)]
    simp only [List.length_cons]
    have harith : i + 1 + u'.length = i + (u'.length + 1) := by omega
    rw [harith]
    cases lastDotFrom v (i + (u'.length + 1)) with
    | some j => rfl
    | none =>
      show (match lastDotFrom u' (i + 1) with
            | some j => some j
            | none => if c == '.' then some i else none) = lastDotFrom (c :: u') i
      rfl

/-- Scanning ".json" for its last dot finds the leading dot. -/
theorem lastDotFrom_json (i : Nat) : lastDotFrom ".json".data i = some i :=
  rfl

/-- The `pathlib` stem of `u ++ ".json"` is `u` for non-empty `u`: the last
dot of the whole name is the one introduced by the suffix. -/
theorem stemData_append_json (u : List Char) (hu : u ≠ []) :
    stemData (u ++ ".json".data) = u := by
  have hpos : 0 < u.length := List.length_pos.mpr hu
  unfold stemData rfindDot
  rw [lastDotFrom_append u ".json".data 0, lastDotFrom_json]
  simp only [Nat.zero_add]
  rw [if_pos ?hcond]
  case hcond =>
    constructor
    · exact hpos
    · rw [List.length_append]
      norm_num
  exact List.take_left u ".json".data

/-- Specialization of `occursB_append_dot` to the ".json" suffix. -/
theorem occursB_append_json (p : List Char) (hdot : '.' ∉ p) (u : List Char)
    (h1 : occursB p u = false) (h2 : occursB p ".json".data = false) :
    occursB p (u ++ ".json".data) = false :=
  occursB_append_dot p hdot u "json".data h1 h2

/-- Specialization of `replaceAll_append_dot` to the ".json" suffix. -/
theorem replaceAll_append_json (p r : List Char) (hdot : '.' ∉ p) (u : List Char) :
    replaceAll p r (u ++ ".json".data) =
      replaceAll p r u ++ replaceAll p r ".json".data :=
  replaceAll_append_dot p r hdot u.length u "json".data le_rfl

/-- Any basename matched by the glob `query-*.json` splits as a non-empty
stem (itself starting with "query-") followed by the ".json" suffix. -/
theorem globMatch_decomp (name : String) (h : globMatch name = true) :
    ∃ u : List Char, name.data = u ++ ".json".data ∧ 6 ≤ u.length ∧
      "query-".data.isPrefixOf u = true := by
  unfold globMatch at h
  simp only [Bool.and_eq_true, decide_eq_true_eq] at h
  obtain ⟨⟨hpre, hsuf⟩, _⟩ := h
  rw [List.isSuffixOf_iff_suffix] at hsuf
  obtain ⟨u, hu⟩ := hsuf
  rw [← hu] at hpre
  have hpu : "query-".data.isPrefixOf u = true :=
    isPrefixOf_append_dot "query-".data u "json".data (by decide) hpre
  have h6 : ("query-".data).length = 6 := rfl
  have := length_le_of_isPrefixOf "query-".data u hpu
  exact ⟨u, hu.symm, by omega, hpu⟩

/-- Character-level form of fix-sqlx-data.py's derivation on a matched name:
take the stem, then delete every occurrence of "query-". -/
theorem hash_value_eq (name : String) (u : List Char)
    (hdecomp : name.data = u ++ ".json".data) (hu : u ≠ []) :
    (hash_value name).data = replaceAll "query-".data [] u := by
  show replaceAll "query-".data [] (stemData name.data) = _
  rw [hdecomp, stemData_append_json u hu]

/-- Character-level form of create-sqlx-data.py's derivation on a matched
name: delete every "query-", which leaves the transformed stem followed by
".json", then delete every ".json" occurrence from that. -/
theorem hash_part_eq (name : String) (u : List Char)
    (hdecomp : name.data = u ++ ".json".data) :
    (hash_part name).data =
      replaceAll ".json".data []
        (replaceAll "query-".data [] u ++ ".json".data) := by
  show replaceAll ".json".data [] (replaceAll "query-".data [] name.data) = _
  rw [hdecomp]
  rw [replaceAll_append_json "query-".data [] (by decide) u]
  rw [replaceAll_no_occurrence "query-".data [] ".json".data (by decide)]

/-- On a matched filename whose fix-style identifier contains no ".json"
substring, the two scripts derive the same identifier. -/
theorem hash_agreement (name : String) (hg : globMatch name = true)
    (hcond : occursB ".json".data (hash_value name).data = false) :
    hash_part name = hash_value name := by
  obtain ⟨u, hdecomp, hlen, _⟩ := globMatch_decomp name hg
  have hu : u ≠ [] := by
    intro h
    rw [h] at hlen
    simp at hlen
  have hv := hash_value_eq name u hdecomp hu
  rw [hv] at hcond
  apply String.ext
  rw [hash_part_eq name u hdecomp, hv]
  exact replaceAll_strip_json (replaceAll "query-".data [] u) hcond

/-- Identifier derivation on a pure token: when the token contains neither
"query-" nor ".json" as a substring, both scripts strip exactly the leading
prefix and the trailing suffix. -/
theorem hash_token (t : String) (hq : occursB "query-".data t.data = false)
    (hj : occursB ".json".data t.data = false) :
    hash_part ("query-" ++ t ++ ".json") = t ∧
      hash_value ("query-" ++ t ++ ".json") = t := by
  have hdata : ("query-" ++ t ++ ".json").data =
      ("query-".data ++ t.data) ++ ".json".data := by
    rw [String.data_append, String.data_append]
  constructor
  · apply String.ext
    rw [hash_part_eq ("query-" ++ t ++ ".json") ("query-".data ++ t.data) hdata]
    rw [replaceAll_head_match "query-".data [] t.data (by decide), List.nil_append]
    rw [replaceAll_no_occurrence "query-".data [] t.data hq]
    exact replaceAll_strip_json t.data hj
  · apply String.ext
    rw [hash_value_eq ("query-" ++ t ++ ".json") ("query-".data ++ t.data) hdata
      (by simp)]
    rw [replaceAll_head_match "query-".data [] t.data (by decide), List.nil_append]
    exact replaceAll_no_occurrence "query-".data [] t.data hq

/-- Every produced entry's hash is the derivation applied to its source
filename. -/
theorem entryOf_hash (h : String → String) (fs : String → Option Json)
    (name : String) (e : QueryEntry) (he : entryOf h fs name = some e) :
    e.hash = h name := by
  unfold entryOf at he
  split at he
  · split at he
    · injection he with he'
      rw [← he']
    · exact absurd he (by simp)
  · exact absurd he (by simp)

/-- A file whose parsed content is a dict carrying both required keys is
turned into exactly the entry built from the derived identifier and the two
looked-up values, whatever those values are. -/
theorem entryOf_eq_some (h : String → String) (fs : String → Option Json)
    (name : String) (kvs : List (String × Json)) (q d : Json)
    (hfs : fs name = some (Json.obj kvs))
    (hq : lookupLast kvs "query" = some q)
    (hd : lookupLast kvs "describe" = some d) :
    entryOf h fs name = some ⟨h name, q, d⟩ := by
  unfold entryOf
  rw [hfs]
  dsimp only
  rw [hq, hd]

/-- Producing an entry succeeds exactly on the files `validB` accepts. -/
theorem entryOf_isSome_eq_validB (h : String → String) (fs : String → Option Json)
    (name : String) : (entryOf h fs name).isSome = validB fs name := by
  unfold entryOf validB
  cases hfs : fs name with
  | none => rfl
  | some j =>
    cases j with
    | obj kvs =>
      dsimp only
      cases hq : lookupLast kvs "query" <;> cases hd : lookupLast kvs "describe" <;> rfl
    | null => rfl
    | bool b => rfl
    | num lit => rfl
    | str s => rfl
    | arr items => rfl

/-- The number of entries produced from a list of files is the number of
files the per-file step accepts. -/
theorem length_filterMap_entries (f : String → Option QueryEntry) :
    ∀ l : List String, (l.filterMap f).length = l.countP (fun a => (f a).isSome) := by
  intro l
  induction l with
  | nil => rfl
  | cons a l ih =>
    cases hf : f a with
    | none => simp [List.filterMap_cons, hf, List.countP_cons, ih]
    | some e => simp [List.filterMap_cons, hf, List.countP_cons, ih]

/-- No entry with a given hash arises from files none of which derives it. -/
theorem filter_hash_filterMap_nil (h : String → String) (fs : String → Option Json)
    (target : String) :
    ∀ l : List String, (∀ x ∈ l, h x ≠ target) →
      (l.filterMap (entryOf h fs)).filter (fun e => e.hash == target) = [] := by
  intro l
  induction l with
  | nil => intro _; rfl
  | cons a l ih =>
    intro hne
    rw [List.filterMap_cons]
    cases he : entryOf h fs a with
    | none => exact ih (fun x hx => hne x (List.mem_cons_of_mem a hx))
    | some e =>
      rw [List.filter_cons]
      have hfalse : (e.hash == target) = false := by
        rw [entryOf_hash h fs a e he]
        exact beq_eq_false_iff_ne.mpr (hne a (List.mem_cons_self a l))
      rw [if_neg (by simp [hfalse])]
      exact ih (fun x hx => hne x (List.mem_cons_of_mem a hx))

/-- When the derived identifiers of the files are pairwise distinct, the
entries carrying the identifier of a well-formed file are exactly the one
entry built from that file. -/
theorem filter_hash_filterMap (h : String → String) (fs : String → Option Json)
    (name : String) (q d : Json) :
    ∀ l : List String, (l.map h).Nodup → name ∈ l →
      entryOf h fs name = some ⟨h name, q, d⟩ →
      (l.filterMap (entryOf h fs)).filter (fun e => e.hash == h name) =
        [⟨h name, q, d⟩] := by
  intro l
  induction l with
  | nil => intro _ hmem _; exact absurd hmem (List.not_mem_nil name)
  | cons a l ih =>
    intro hnd hmem he
    rw [List.map_cons, List.nodup_cons] at hnd
    rw [List.filterMap_cons]
    by_cases ha : a = name
    · subst ha
      rw [he, List.filter_cons]
      have ht : ((⟨h a, q, d⟩ : QueryEntry).hash == h a) = true := by simp
      rw [if_pos ht]
      have hrest : ∀ x ∈ l, h x ≠ h a := by
        intro x hx hc
        exact hnd.1 (by rw [← hc]; exact List.mem_map_of_mem h hx)
      rw [filter_hash_filterMap_nil h fs (h a) l hrest]
    · have hmem' : name ∈ l := by
        cases hmem with
        | head => exact absurd rfl ha
        | tail _ hmem' => exact hmem'
      cases hea : entryOf h fs a with
      | none => exact ih hnd.2 hmem' he
      | some e =>
        rw [List.filter_cons]
        have hfalse : (e.hash == h name) = false := by
          rw [entryOf_hash h fs a e hea]
          refine beq_eq_false_iff_ne.mpr ?_
          intro hc
          exact hnd.1 (by rw [hc]; exact List.mem_map_of_mem h hmem')
        rw [if_neg (by simp [hfalse])]
        exact ih hnd.2 hmem' he

/-- Unfolding of a non-empty create-sqlx-data.py run. -/
theorem runCreate_eq (fs : String → Option Json) (dir : List String)
    (hne : dir.filter globMatch ≠ []) :
    runCreate fs dir =
      ⟨some (aggregate (entriesOf hash_part fs (dir.filter globMatch))), 0⟩ := by
  simp only [runCreate]
  rw [if_neg (by simp [List.isEmpty_iff, hne])]

/-- Unfolding of a non-empty fix-sqlx-data.py run. -/
theorem runFix_eq (fs : String → Option Json) (dir : List String)
    (hne : dir.filter globMatch ≠ []) :
    runFix fs dir =
      ⟨some (aggregate (entriesOf hash_value fs (dir.filter globMatch))), 0⟩ := by
  simp only [runFix]
  rw [if_neg (by simp [List.isEmpty_iff, hne])]

/-- Unfolding of an empty create-sqlx-data.py run. -/
theorem runCreate_empty (fs : String → Option Json) (dir : List String)
    (hemp : dir.filter globMatch = []) :
    runCreate fs dir = ⟨none, 1⟩ := by
  simp only [runCreate]
  rw [if_pos (by simp [List.isEmpty_iff, hemp])]

/-- Unfolding of an empty fix-sqlx-data.py run. -/
theorem runFix_empty (fs : String → Option Json) (dir : List String)
    (hemp : dir.filter globMatch = []) :
    runFix fs dir = ⟨none, 0⟩ := by
  simp only [runFix]
  rw [if_pos (by simp [List.isEmpty_iff, hemp])]

/-- The identifier derivations only enter through the hash field, so equal
derivations give equal entries. -/
theorem entryOf_hash_congr (h1 h2 : String → String) (fs : String → Option Json)
    (name : String) (hh : h1 name = h2 name) :
    entryOf h1 fs name = entryOf h2 fs name := by
  unfold entryOf
  rw [hh]

/-- When every matched filename satisfies the no-".json"-in-identifier side
condition, the two scripts accumulate the same entry list. -/
theorem entriesOf_agree (fs : String → Option Json) (dir : List String)
    (hcond : ∀ name ∈ dir.filter globMatch,
      occursB ".json".data (hash_value name).data = false) :
    entriesOf hash_part fs (dir.filter globMatch) =
      entriesOf hash_value fs (dir.filter globMatch) := by
  unfold entriesOf
  apply List.filterMap_congr
  intro name hmem
  have hmem' : name ∈ dir.filter globMatch :=
    (List.perm_insertionSort (fun a b => a.data ≤ b.data) (dir.filter globMatch)).subset hmem
  exact entryOf_hash_congr hash_part hash_value fs name
    (hash_agreement name (List.of_mem_filter hmem') (hcond name hmem'))

/-- Permuting the unsorted glob result does not change the sorted list the
scripts iterate over. -/
theorem insertionSort_perm_eq (l1 l2 : List String) (hperm : List.Perm l1 l2) :
    l1.insertionSort (fun a b => a.data ≤ b.data) =
      l2.insertionSort (fun a b => a.data ≤ b.data) := by
  exact List.eq_of_perm_of_sorted
    ((List.perm_insertionSort _ l1).trans (hperm.trans (List.perm_insertionSort _ l2).symm))
    (List.sorted_insertionSort _ l1) (List.sorted_insertionSort _ l2)

/-- The unique-entry lemma carried through the sorting step. -/
theorem entriesOf_unique (h : String → String) (fs : String → Option Json)
    (l : List String) (name : String) (kvs : List (String × Json)) (q d : Json)
    (hnd : (l.map h).Nodup) (hmem : name ∈ l)
    (hfs : fs name = some (Json.obj kvs))
    (hq : lookupLast kvs "query" = some q)
    (hd : lookupLast kvs "describe" = some d) :
    (entriesOf h fs l).filter (fun e => e.hash == h name) = [⟨h name, q, d⟩] := by
  unfold entriesOf
  apply filter_hash_filterMap h fs name q d
  · exact (((List.perm_insertionSort (fun a b => a.data ≤ b.data) l).map h).nodup_iff).mpr hnd
  · exact ((List.perm_insertionSort (fun a b => a.data ≤ b.data) l).symm.subset) hmem
  · exact entryOf_eq_some h fs name kvs q d hfs hq hd

/-- C1, counterexample: for the hash token "query-x" (which contains the
substring "query-"), the filename query-query-x.json is mapped by both
scripts to "x", not to the token "query-x": `str.replace` deletes every
occurrence of "query-", not only the leading prefix, so the claim's "for all
hash tokens" quantification fails. -/
theorem c1_counterexample :
    hash_part ("query-" ++ "query-x" ++ ".json") ≠ "query-x" ∧
      hash_value ("query-" ++ "query-x" ++ ".json") ≠ "query-x" := by
  exact ⟨by decide, by decide⟩

/-- C1 (amended): for every input filename query-&lt;token&gt;.json whose token
contains neither "query-" nor ".json" as a substring, the derived identifier
of either script equals the token (so query-abc123.json yields abc123).  The
original unrestricted quantification is false, because the derivations are
occurrence deletions, not prefix/suffix stripping, and can therefore disagree
with the token, as on query-query-x.json. -/
theorem c1_amended (t : String)
    (hq : occursB "query-".data t.data = false)
    (hj : occursB ".json".data t.data = false) :
    hash_part ("query-" ++ t ++ ".json") = t ∧
      hash_value ("query-" ++ t ++ ".json") = t :=
  hash_token t hq hj

/-- Witness instantiating `c1_amended` at the token "abc123". -/
theorem c1_amended_witness :
    (occursB "query-".data "abc123".data = false ∧
      occursB ".json".data "abc123".data = false) ∧
      (hash_part ("query-" ++ "abc123" ++ ".json") = "abc123" ∧
        hash_value ("query-" ++ "abc123" ++ ".json") = "abc123") :=
  ⟨⟨by decide, by decide⟩, c1_amended "abc123" (by decide) (by decide)⟩

/-- C2, counterexample: a run of fix-sqlx-data.py over a directory with no
matching file terminates with exit status 0, because `main()` merely returns
and the script never raises or calls `exit`; the claim's "non-zero ... for
both scripts" is false. -/
theorem c2_counterexample : (runFix (fun _ => none) ["README.md"]).exitCode = 0 := by
  decide

/-- C2 (amended): with no file matching query-*.json, create-sqlx-data.py
exits with status 1 (its `create_sqlx_data` returns False and the caller maps
that to `exit(1)`), while fix-sqlx-data.py exits with status 0. -/
theorem c2_amended (fs : String → Option Json) (dir : List String)
    (hemp : dir.filter globMatch = []) :
    (runCreate fs dir).exitCode = 1 ∧ (runFix fs dir).exitCode = 0 := by
  rw [runCreate_empty fs dir hemp, runFix_empty fs dir hemp]
  exact ⟨rfl, rfl⟩

/-- Witness instantiating `c2_amended` on a directory with one non-matching
file. -/
theorem c2_amended_witness :
    ((["README.md"] : List String).filter globMatch = []) ∧
      ((runCreate (fun _ => none) ["README.md"]).exitCode = 1 ∧
        (runFix (fun _ => none) ["README.md"]).exitCode = 0) :=
  ⟨by decide, c2_amended (fun _ => none) ["README.md"] (by decide)⟩

/-- C3, counterexample: on the single input file query-a.jsonb.json the two
scripts write different aggregates: create-sqlx-data.py derives the
identifier "ab" (it deletes the interior ".json" occurrence too), while
fix-sqlx-data.py derives "a.jsonb"; the claim that the scripts always produce
identical output is false. -/
theorem c3_counterexample :
    (runCreate wFs ["query-a.jsonb.json"]).output ≠
      (runFix wFs ["query-a.jsonb.json"]).output := by
  intro hcontra
  have h2 := congrArg (fun o => outputFirstHash ⟨o, 0⟩) hcontra
  exact absurd h2 (by decide)

/-- C3 (amended): the two scripts produce identical aggregate output on every
input set in which no matched filename's stripped stem (the stem with every
"query-" occurrence deleted, i.e. fix-sqlx-data.py's identifier) contains
".json" as a substring.  The counterexample above shows the restriction is
needed. -/
theorem c3_amended (fs : String → Option Json) (dir : List String)
    (hcond : ∀ name ∈ dir.filter globMatch,
      occursB ".json".data (hash_value name).data = false) :
    (runCreate fs dir).output = (runFix fs dir).output := by
  by_cases hemp : dir.filter globMatch = []
  · rw [runCreate_empty fs dir hemp, runFix_empty fs dir hemp]
  · rw [runCreate_eq fs dir hemp, runFix_eq fs dir hemp,
      entriesOf_agree fs dir hcond]

/-- Witness instantiating `c3_amended` on a two-file directory. -/
theorem c3_amended_witness :
    (∀ name ∈ (["query-b.json", "query-a.json"] : List String).filter globMatch,
      occursB ".json".data (hash_value name).data = false) ∧
      (runCreate wFs ["query-b.json", "query-a.json"]).output =
        (runFix wFs ["query-b.json", "query-a.json"]).output :=
  ⟨by decide, c3_amended wFs ["query-b.json", "query-a.json"] (by decide)⟩

/-- C4: the consolidation is deterministic: the byte content written to
sqlx-data.json does not depend on the enumeration order of the glob result
(the only run-to-run variation in the model), for either script: entries are
sorted by filename and serialized by the fixed `json.dump(·, indent=2)`
rendering with insertion field order. -/
theorem c4_determinism (fs : String → Option Json) (dir1 dir2 : List String)
    (hperm : List.Perm dir1 dir2) :
    outputBytes (runCreate fs dir1) = outputBytes (runCreate fs dir2) ∧
      outputBytes (runFix fs dir1) = outputBytes (runFix fs dir2) := by
  have hfil : List.Perm (dir1.filter globMatch) (dir2.filter globMatch) :=
    hperm.filter globMatch
  have hsort := insertionSort_perm_eq (dir1.filter globMatch) (dir2.filter globMatch) hfil
  by_cases hemp : dir1.filter globMatch = []
  · have hemp2 : dir2.filter globMatch = [] := by
      rw [hemp] at hfil
      exact hfil.symm.eq_nil
    rw [runCreate_empty fs dir1 hemp, runCreate_empty fs dir2 hemp2,
      runFix_empty fs dir1 hemp, runFix_empty fs dir2 hemp2]
    exact ⟨rfl, rfl⟩
  · have hemp2 : dir2.filter globMatch ≠ [] := by
      intro h
      exact hemp (List.Perm.eq_nil (h ▸ hfil))
    rw [runCreate_eq fs dir1 hemp, runCreate_eq fs dir2 hemp2,
      runFix_eq fs dir1 hemp, runFix_eq fs dir2 hemp2]
    simp only [entriesOf]
    rw [hsort]
    exact ⟨rfl, rfl⟩

/-- Witness instantiating `c4_determinism` on two enumeration orders of the
same two files. -/
theorem c4_determinism_witness :
    List.Perm ["query-b.json", "query-a.json"] ["query-a.json", "query-b.json"] ∧
      (outputBytes (runCreate wFs ["query-b.json", "query-a.json"]) =
          outputBytes (runCreate wFs ["query-a.json", "query-b.json"]) ∧
        outputBytes (runFix wFs ["query-b.json", "query-a.json"]) =
          outputBytes (runFix wFs ["query-a.json", "query-b.json"])) :=
  ⟨by decide, c4_determinism wFs _ _ (by decide)⟩

/-- C5, counterexample: two distinct matched filenames can derive the same
identifier (query-ab.json and query-query-ab.json both yield "ab"), and with
identical contents the output then carries two equal entries with that hash,
so "exactly one entry" fails for the valid input file query-ab.json. -/
theorem c5_counterexample :
    (runCreate wFs ["query-ab.json", "query-query-ab.json"]).output =
        some (aggregate (entriesOf hash_part wFs
          (["query-ab.json", "query-query-ab.json"].filter globMatch))) ∧
      (entriesOf hash_part wFs
          (["query-ab.json", "query-query-ab.json"].filter globMatch)).filter
          (fun e => e.hash == hash_part "query-ab.json") ≠
        [⟨hash_part "query-ab.json", Json.str "q", Json.null⟩] := by
  constructor
  · rfl
  · intro hcontra
    have h2 := congrArg List.length hcontra
    exact absurd h2 (by decide)

/-- C5 (amended): completeness holds under the additional hypothesis that the
derived identifiers of the matched filenames are pairwise distinct (in
particular the directory listing has no duplicates): then for every valid
input file the queries sequence the run writes contains exactly one entry
with that file's derived hash, carrying the file's query and describe values
unmodified. -/
theorem c5_amended (fs : String → Option Json) (dir : List String) (name : String)
    (kvs : List (String × Json)) (q d : Json)
    (hmem : name ∈ dir.filter globMatch)
    (hndC : ((dir.filter globMatch).map hash_part).Nodup)
    (hndF : ((dir.filter globMatch).map hash_value).Nodup)
    (hfs : fs name = some (Json.obj kvs))
    (hq : lookupLast kvs "query" = some q)
    (hd : lookupLast kvs "describe" = some d) :
    ((runCreate fs dir).output =
        some (aggregate (entriesOf hash_part fs (dir.filter globMatch))) ∧
      (runFix fs dir).output =
        some (aggregate (entriesOf hash_value fs (dir.filter globMatch)))) ∧
      (entriesOf hash_part fs (dir.filter globMatch)).filter
          (fun e => e.hash == hash_part name) = [⟨hash_part name, q, d⟩] ∧
      (entriesOf hash_value fs (dir.filter globMatch)).filter
          (fun e => e.hash == hash_value name) = [⟨hash_value name, q, d⟩] := by
  have hne : dir.filter globMatch ≠ [] := List.ne_nil_of_mem hmem
  refine ⟨⟨?_, ?_⟩, ?_, ?_⟩
  · rw [runCreate_eq fs dir hne]
  · rw [runFix_eq fs dir hne]
  · exact entriesOf_unique hash_part fs (dir.filter globMatch) name kvs q d
      hndC hmem hfs hq hd
  · exact entriesOf_unique hash_value fs (dir.filter globMatch) name kvs q d
      hndF hmem hfs hq hd

/-- Witness instantiating `c5_amended` on a two-file directory with distinct
identifiers. -/
theorem c5_amended_witness :
    ("query-a.json" ∈ (["query-a.json", "query-b.json"] : List String).filter globMatch ∧
      (((["query-a.json", "query-b.json"] : List String).filter globMatch).map
        hash_part).Nodup ∧
      (((["query-a.json", "query-b.json"] : List String).filter globMatch).map
        hash_value).Nodup ∧
      wFs "query-a.json" = some (Json.obj
        [("query", Json.str "SELECT 1"),
         ("describe", Json.obj [("columns", Json.arr [])])]) ∧
      lookupLast
        [("query", Json.str "SELECT 1"),
         ("describe", Json.obj [("columns", Json.arr [])])] "query" =
        some (Json.str "SELECT 1") ∧
      lookupLast
        [("query", Json.str "SELECT 1"),
         ("describe", Json.obj [("columns", Json.arr [])])] "describe" =
        some (Json.obj [("columns", Json.arr [])])) ∧
      (((runCreate wFs ["query-a.json", "query-b.json"]).output =
          some (aggregate (entriesOf hash_part wFs
            ((["query-a.json", "query-b.json"] : List String).filter globMatch))) ∧
        (runFix wFs ["query-a.json", "query-b.json"]).output =
          some (aggregate (entriesOf hash_value wFs
            ((["query-a.json", "query-b.json"] : List String).filter globMatch)))) ∧
        (entriesOf hash_part wFs
            ((["query-a.json", "query-b.json"] : List String).filter globMatch)).filter
            (fun e => e.hash == hash_part "query-a.json") =
          [⟨hash_part "query-a.json", Json.str "SELECT 1",
            Json.obj [("columns", Json.arr [])]⟩] ∧
        (entriesOf hash_value wFs
            ((["query-a.json", "query-b.json"] : List String).filter globMatch)).filter
            (fun e => e.hash == hash_value "query-a.json") =
          [⟨hash_value "query-a.json", Json.str "SELECT 1",
            Json.obj [("columns", Json.arr [])]⟩]) :=
  ⟨⟨by decide, by decide, by decide, rfl, rfl, rfl⟩,
    c5_amended wFs ["query-a.json", "query-b.json"] "query-a.json"
      [("query", Json.str "SELECT 1"),
       ("describe", Json.obj [("columns", Json.arr [])])]
      (Json.str "SELECT 1") (Json.obj [("columns", Json.arr [])])
      (by decide) (by decide) (by decide) rfl rfl rfl⟩

/-- The character-list comparison used for sorting filenames is exactly the
lexicographic order on strings. -/
theorem pyLe_iff (a b : String) : (a.data ≤ b.data) ↔ a ≤ b :=
  String.le_iff_toList_le.symm

/-- C6: on every run with at least one matched file, both scripts write the
aggregate object consisting of exactly the fixed tag db = "PostgreSQL"
followed by the queries sequence, whose entries arise from the matched
filenames taken in lexicographically sorted order. -/
theorem c6_sorted_output (fs : String → Option Json) (dir : List String)
    (hne : dir.filter globMatch ≠ []) :
    ∃ l : List String, List.Perm (dir.filter globMatch) l ∧
      l.Sorted (fun a b => a ≤ b) ∧
      (runCreate fs dir).output = some (Json.obj
        [("db", Json.str "PostgreSQL"),
         ("queries", Json.arr ((l.filterMap (entryOf hash_part fs)).map entryJson))]) ∧
      (runFix fs dir).output = some (Json.obj
        [("db", Json.str "PostgreSQL"),
         ("queries", Json.arr ((l.filterMap (entryOf hash_value fs)).map entryJson))]) := by
  refine ⟨(dir.filter globMatch).insertionSort (fun a b => a.data ≤ b.data),
    (List.perm_insertionSort _ _).symm, ?_, ?_, ?_⟩
  · exact (List.sorted_insertionSort _ _).imp (fun hab => (pyLe_iff _ _).mp hab)
  · rw [runCreate_eq fs dir hne]
    rfl
  · rw [runFix_eq fs dir hne]
    rfl

/-- Witness instantiating `c6_sorted_output` on a two-file directory given in
unsorted order. -/
theorem c6_sorted_output_witness :
    ((["query-b.json", "query-a.json"] : List String).filter globMatch ≠ []) ∧
      (∃ l : List String,
        List.Perm ((["query-b.json", "query-a.json"] : List String).filter globMatch) l ∧
        l.Sorted (fun a b => a ≤ b) ∧
        (runCreate wFs ["query-b.json", "query-a.json"]).output = some (Json.obj
          [("db", Json.str "PostgreSQL"),
           ("queries", Json.arr ((l.filterMap (entryOf hash_part wFs)).map entryJson))]) ∧
        (runFix wFs ["query-b.json", "query-a.json"]).output = some (Json.obj
          [("db", Json.str "PostgreSQL"),
           ("queries", Json.arr ((l.filterMap (entryOf hash_value wFs)).map entryJson))])) :=
  ⟨by decide, c6_sorted_output wFs ["query-b.json", "query-a.json"] (by decide)⟩

/-- Counting a Boolean predicate and its negation partitions a list. -/
theorem countP_bool_split (p : String → Bool) :
    ∀ l : List String, l.countP (fun a => p a) + l.countP (fun a => !p a) = l.length := by
  intro l
  induction l with
  | nil => rfl
  | cons a l ih =>
    cases hp : p a <;> simp [List.countP_cons, hp] <;> omega

/-- C7: when exactly one of at least two matched files is malformed, both
scripts still write the output, it carries one entry per well-formed file
(N-1 of them), and both runs exit with status 0. -/
theorem c7_partial_failure (fs : String → Option Json) (dir : List String)
    (hlen2 : 2 ≤ (dir.filter globMatch).length)
    (hone : (dir.filter globMatch).countP (fun n => validB fs n = false) = 1) :
    ((runCreate fs dir).output =
        some (aggregate (entriesOf hash_part fs (dir.filter globMatch))) ∧
      (runFix fs dir).output =
        some (aggregate (entriesOf hash_value fs (dir.filter globMatch)))) ∧
      (entriesOf hash_part fs (dir.filter globMatch)).length =
        (dir.filter globMatch).length - 1 ∧
      (entriesOf hash_value fs (dir.filter globMatch)).length =
        (dir.filter globMatch).length - 1 ∧
      (runCreate fs dir).exitCode = 0 ∧ (runFix fs dir).exitCode = 0 := by
  have hne : dir.filter globMatch ≠ [] := by
    intro h
    rw [h] at hlen2
    simp at hlen2
  have key : ∀ h' : String → String,
      (entriesOf h' fs (dir.filter globMatch)).length =
        (dir.filter globMatch).length - 1 := by
    intro h'
    unfold entriesOf
    rw [length_filterMap_entries (entryOf h' fs)]
    have hfun : (fun a => (entryOf h' fs a).isSome) = fun a => validB fs a := by
      funext a
      exact entryOf_isSome_eq_validB h' fs a
    rw [hfun,
      (List.perm_insertionSort (fun a b => a.data ≤ b.data)
        (dir.filter globMatch)).countP_eq]
    have hsplit := countP_bool_split (fun n => validB fs n) (dir.filter globMatch)
    have hone' : (dir.filter globMatch).countP (fun n => !validB fs n) = 1 := by
      rw [← hone]
      apply List.countP_congr
      intro x _
      cases validB fs x <;> simp
    omega
  refine ⟨⟨?_, ?_⟩, key hash_part, key hash_value, ?_, ?_⟩
  · rw [runCreate_eq fs dir hne]
  · rw [runFix_eq fs dir hne]
  · rw [runCreate_eq fs dir hne]
  · rw [runFix_eq fs dir hne]

/-- Witness instantiating `c7_partial_failure` on two matched files of which
query-bad.json lacks the describe field. -/
theorem c7_partial_failure_witness :
    (2 ≤ ((["query-a.json", "query-bad.json"] : List String).filter globMatch).length ∧
      ((["query-a.json", "query-bad.json"] : List String).filter globMatch).countP
        (fun n => validB wFs n = false) = 1) ∧
      (((runCreate wFs ["query-a.json", "query-bad.json"]).output =
          some (aggregate (entriesOf hash_part wFs
            ((["query-a.json", "query-bad.json"] : List String).filter globMatch))) ∧
        (runFix wFs ["query-a.json", "query-bad.json"]).output =
          some (aggregate (entriesOf hash_value wFs
            ((["query-a.json", "query-bad.json"] : List String).filter globMatch)))) ∧
        (entriesOf hash_part wFs
            ((["query-a.json", "query-bad.json"] : List String).filter globMatch)).length =
          ((["query-a.json", "query-bad.json"] : List String).filter globMatch).length - 1 ∧
        (entriesOf hash_value wFs
            ((["query-a.json", "query-bad.json"] : List String).filter globMatch)).length =
          ((["query-a.json", "query-bad.json"] : List String).filter globMatch).length - 1 ∧
        (runCreate wFs ["query-a.json", "query-bad.json"]).exitCode = 0 ∧
        (runFix wFs ["query-a.json", "query-bad.json"]).exitCode = 0) :=
  ⟨⟨by decide, by decide⟩,
    c7_partial_failure wFs ["query-a.json", "query-bad.json"] (by decide) (by decide)⟩

/-- C8: when at least one file matches but every matched file is malformed,
both scripts still write the output file, whose queries sequence is empty,
and both exit with status 0 (no abort). -/
theorem c8_all_malformed (fs : String → Option Json) (dir : List String)
    (hne : dir.filter globMatch ≠ [])
    (hall : ∀ n ∈ dir.filter globMatch, validB fs n = false) :
    ((runCreate fs dir).output = some (aggregate []) ∧
      (runCreate fs dir).exitCode = 0) ∧
      (runFix fs dir).output = some (aggregate []) ∧
      (runFix fs dir).exitCode = 0 := by
  have hents : ∀ h' : String → String, entriesOf h' fs (dir.filter globMatch) = [] := by
    intro h'
    unfold entriesOf
    rw [List.filterMap_eq_nil_iff]
    intro a ha
    have ha' : a ∈ dir.filter globMatch :=
      (List.perm_insertionSort (fun a b => a.data ≤ b.data) (dir.filter globMatch)).subset ha
    have hvb := entryOf_isSome_eq_validB h' fs a
    rw [hall a ha'] at hvb
    exact Option.not_isSome_iff_eq_none.mp (by simp [hvb])
  rw [runCreate_eq fs dir hne, runFix_eq fs dir hne, hents hash_part, hents hash_value]
  exact ⟨⟨rfl, rfl⟩, rfl, rfl⟩

/-- Witness instantiating `c8_all_malformed` on a directory whose single
matched file lacks the describe field. -/
theorem c8_all_malformed_witness :
    ((["query-bad.json"] : List String).filter globMatch ≠ [] ∧
      (∀ n ∈ (["query-bad.json"] : List String).filter globMatch, validB wFs n = false)) ∧
      (((runCreate wFs ["query-bad.json"]).output = some (aggregate []) ∧
        (runCreate wFs ["query-bad.json"]).exitCode = 0) ∧
        (runFix wFs ["query-bad.json"]).output = some (aggregate []) ∧
        (runFix wFs ["query-bad.json"]).exitCode = 0) :=
  ⟨⟨by decide, by decide⟩,
    c8_all_malformed wFs ["query-bad.json"] (by decide) (by decide)⟩

/-- C9: when no file matches query-*.json, neither script writes (creates or
modifies) the output file sqlx-data.json: both return before reaching the
write, so any pre-existing file is untouched. -/
theorem c9_empty_no_write (fs : String → Option Json) (dir : List String)
    (hemp : dir.filter globMatch = []) :
    (runCreate fs dir).output = none ∧ (runFix fs dir).output = none := by
  rw [runCreate_empty fs dir hemp, runFix_empty fs dir hemp]
  exact ⟨rfl, rfl⟩

/-- Witness instantiating `c9_empty_no_write` on an empty directory. -/
theorem c9_empty_no_write_witness :
    (([] : List String).filter globMatch = []) ∧
      ((runCreate (fun _ => none) []).output = none ∧
        (runFix (fun _ => none) []).output = none) :=
  ⟨by decide, c9_empty_no_write (fun _ => none) [] (by decide)⟩

/-- C10: no validation of the field values is performed: any parsed object
carrying the keys "query" and "describe" is consolidated, whatever the two
values are (non-string, null, ...), every other field of the object is
dropped, and the output entry consists of exactly the three fields "hash",
"query" and "describe" in that order. -/
theorem c10_no_validation (fs : String → Option Json) (name : String)
    (kvs : List (String × Json)) (q d : Json)
    (hfs : fs name = some (Json.obj kvs))
    (hq : lookupLast kvs "query" = some q)
    (hd : lookupLast kvs "describe" = some d) :
    (entryOf hash_part fs name = some ⟨hash_part name, q, d⟩ ∧
      entryOf hash_value fs name = some ⟨hash_value name, q, d⟩) ∧
      entryJson ⟨hash_part name, q, d⟩ =
        Json.obj [("hash", Json.str (hash_part name)), ("query", q), ("describe", d)] ∧
      entryJson ⟨hash_value name, q, d⟩ =
        Json.obj [("hash", Json.str (hash_value name)), ("query", q), ("describe", d)] :=
  ⟨⟨entryOf_eq_some hash_part fs name kvs q d hfs hq hd,
    entryOf_eq_some hash_value fs name kvs q d hfs hq hd⟩, rfl, rfl⟩

/-- Witness instantiating `c10_no_validation` on a descriptor whose query
value is null, whose describe value is a number, and which carries an extra
field that is dropped. -/
theorem c10_no_validation_witness :
    (wFs10 "query-odd.json" = some (Json.obj
        [("query", Json.null), ("describe", Json.num "7"), ("extra", Json.bool true)]) ∧
      lookupLast
        [("query", Json.null), ("describe", Json.num "7"), ("extra", Json.bool true)]
        "query" = some Json.null ∧
      lookupLast
        [("query", Json.null), ("describe", Json.num "7"), ("extra", Json.bool true)]
        "describe" = some (Json.num "7")) ∧
      ((entryOf hash_part wFs10 "query-odd.json" =
          some ⟨hash_part "query-odd.json", Json.null, Json.num "7"⟩ ∧
        entryOf hash_value wFs10 "query-odd.json" =
          some ⟨hash_value "query-odd.json", Json.null, Json.num "7"⟩) ∧
        entryJson ⟨hash_part "query-odd.json", Json.null, Json.num "7"⟩ =
          Json.obj [("hash", Json.str (hash_part "query-odd.json")),
            ("query", Json.null), ("describe", Json.num "7")] ∧
        entryJson ⟨hash_value "query-odd.json", Json.null, Json.num "7"⟩ =
          Json.obj [("hash", Json.str (hash_value "query-odd.json")),
            ("query", Json.null), ("describe", Json.num "7")]) :=
  ⟨⟨rfl, rfl, rfl⟩,
    c10_no_validation wFs10 "query-odd.json"
      [("query", Json.null), ("describe", Json.num "7"), ("extra", Json.bool true)]
      Json.null (Json.num "7") rfl rfl rfl⟩
